import Mathlib

/-!
Shallow embedding of `src/main.py` of the analyze-disk-performance repository:
buffer generation (`create_bytearray`, `create_bytearray_killobytes`), argument
validation (`validate_kwargs`), the bounded continuous-write loop
(`write_byte_array_continuously`), the two-phase disk fill
(`write_byte_array_contiguously`) with its background usage monitor, and the
throughput sweep (`create_byte_array_high_throughput`).

Modelling conventions:
* Python ints are `Int` (or `Nat` where the source value is provably nonneg),
  Python floats are `ℚ`.
* `random.randint(0, 255)` is an oracle `rng : Nat → Fin 256` indexed by the
  order of calls.
* `time.time()` is an oracle `clock : Nat → ℚ` indexed by the order of calls;
  physical wall clocks are (weakly) monotone.
* Raised exceptions are `Except.error` with a message tag; unbounded `while`
  loops take a fuel parameter, `none` meaning the loop did not finish within
  the given fuel.
* Free space of the target drive is an explicit `Nat`; a successful write of
  `n` bytes decreases it by `n`.
-/

instance {ε α : Type} [DecidableEq ε] [DecidableEq α] : DecidableEq (Except ε α) :=
  fun x y =>
  match x, y with
  | Except.error a, Except.error b => decidable_of_iff (a = b) (by simp)
  | Except.error _, Except.ok _ => isFalse (by simp)
  | Except.ok _, Except.error _ => isFalse (by simp)
  | Except.ok a, Except.ok b => decidable_of_iff (a = b) (by simp)

/-- `OPERATIONS` list from `src/main.py` line 51. -/
def OPERATIONS : List String := ["perf", "fill", "perf+fill", "loop"]

/-- `LOG_LEVELS = list(logging._nameToLevel)`, in CPython key-insertion order. -/
def LOG_LEVELS : List String :=
  ["CRITICAL", "FATAL", "ERROR", "WARN", "WARNING", "INFO", "DEBUG", "NOTSET"]

/-- `validate_kwargs` from `src/main.py` lines 94-119 (the trailing
`os.makedirs` directory handling is outside the validation checks and not
modelled).  Note the source's fill check is literally
`if fill != -1: if fill < 0 and 255 < fill: raise ...` - conjunction, exactly
as written. -/
def validate_kwargs (operation log_level : String) (fill size : Int)
    (duration : ℚ) (iterations : Int) : Except String Unit :=
  if operation ∉ OPERATIONS then
    Except.error "KeyError: operation does not exist"
  else if log_level ∉ LOG_LEVELS then
    Except.error "KeyError: log_level does not exist"
  else if size < 1 then
    Except.error "ValueError: duration must be a postive int, are you nuts?"
  else if fill ≠ -1 ∧ (fill < 0 ∧ 255 < fill) then
    Except.error "ValueError: fill must be a value between [0,255] or -1"
  else if duration < 0 then
    Except.error "ValueError: duration must be a postive num, are you nuts?"
  else if iterations < 0 then
    Except.error "ValueError: iterations must be a postive int, are you nuts?"
  else
    Except.ok ()

/-- `create_bytearray` from `src/main.py` lines 63-68.
`bytearray(random.randint(0, 255) for _ in range(count))` for `fill == -1`,
otherwise `bytearray(fill for _ in range(count))`, which raises `ValueError`
iff the generator is nonempty (`count > 0`, i.e. `count.toNat ≠ 0`; Python
`range` of a negative int is empty) and `fill` is outside `[0, 256)`. -/
def create_bytearray (rng : Nat → Fin 256) (count : Int) (fill : Int) :
    Except String (List Nat) :=
  if fill = -1 then
    Except.ok ((List.range count.toNat).map (fun i => (rng i).val))
  else if count.toNat ≠ 0 ∧ (fill < 0 ∨ 255 < fill) then
    Except.error "ValueError: byte must be in range(0, 256)"
  else
    Except.ok (List.replicate count.toNat fill.toNat)

/-- `create_bytearray_killobytes` from `src/main.py` lines 70-82: build one
1024-byte block once, then extend an empty bytearray with a copy of it
`count` times (empty for negative `count`, since `range(count)` is empty). -/
def create_bytearray_killobytes (rng : Nat → Fin 256) (count : Int)
    (fill : Int) : Except String (List Nat) :=
  match create_bytearray rng 1024 fill with
  | Except.error e => Except.error e
  | Except.ok killobyte => Except.ok (List.flatten (List.replicate count.toNat killobyte))

/-- The triple returned by `write_byte_array_continuously`
(`bytes_written, elapsed, iteration`, `src/main.py` line 151). -/
structure WriteResult where
  bytes_written : Nat
  elapsed : ℚ
  iteration : Nat
deriving DecidableEq

/-- The `while time.time() - start < duration or iteration < iterations` loop
of `src/main.py` line 143.  `start` is the clock reading of call `0`; the
check after `it` completed iterations reads the clock at call `it + 1`.
Returns the final iteration count, or `none` if `fuel` checks did not
suffice. -/
def write_loop (clock : Nat → ℚ) (duration : ℚ) (iterations : Nat) :
    Nat → Nat → Option Nat
  | 0, _ => none
  | fuel + 1, it =>
    if clock (it + 1) - clock 0 < duration ∨ it < iterations then
      write_loop clock duration iterations fuel (it + 1)
    else
      some it

/-- `write_byte_array_continuously` from `src/main.py` lines 121-151.
The file is truncated twice before the loop, so `original_size = 0` and
`bytes_written = iteration * len(byte_array)`; `end` is the clock call right
after the failing check (call `it + 2`); line 149 then computes
`throughput = bytes_written / 1024**2 / elapsed` unconditionally, which in
Python raises `ZeroDivisionError` whenever `elapsed == 0.0`.  The source first
calls `validate_kwargs` with the remaining parameters at their defaults
(`operation='perf'`, `log_level='INFO'`, `fill=-1`, `size=1`). -/
def write_byte_array_continuously (clock : Nat → ℚ) (byte_array : List Nat)
    (duration : ℚ) (iterations : Int) (fuel : Nat) :
    Option (Except String WriteResult) :=
  match validate_kwargs "perf" "INFO" (-1) 1 duration iterations with
  | Except.error e => some (Except.error e)
  | Except.ok _ =>
    match write_loop clock duration iterations.toNat fuel 0 with
    | none => none
    | some it =>
      if clock (it + 2) - clock 0 = 0 then
        some (Except.error "ZeroDivisionError: float division by zero")
      else
        some (Except.ok ⟨it * byte_array.length, clock (it + 2) - clock 0, it⟩)

/-- A strictly advancing reference clock used for concrete runs. -/
def natClock : Nat → ℚ := fun i => (i : ℚ)

/-- `one_mb_bytes = 1024**2` from `src/main.py` line 166. -/
def one_mb : Nat := 1024 ^ 2

/-- The coarse phase of `write_byte_array_contiguously` (`src/main.py` lines
172-174): `while psutil.disk_usage(drive).free > byte_array_bytes: wb.write(byte_array)`.
Returns the list of free-space readings at which a full-buffer write was
performed, and the free space left when the loop condition first failed
(`none` if the loop did not exit within `fuel` iterations, e.g. for an empty
buffer). -/
def coarse_loop (byte_array_bytes : Nat) : Nat → Nat → List Nat × Option Nat
  | 0, _ => ([], none)
  | fuel + 1, free =>
    if byte_array_bytes < free then
      (free :: (coarse_loop byte_array_bytes fuel (free - byte_array_bytes)).1,
        (coarse_loop byte_array_bytes fuel (free - byte_array_bytes)).2)
    else
      ([], some free)

/-- The fine phase of `write_byte_array_contiguously` (`src/main.py` lines
176-182): `for i in range(byte_array_bytes // one_mb_bytes)`, and if
`psutil.disk_usage(drive).free > one_mb_bytes` write the slice
`byte_array[i * one_mb_bytes:(i + 1) * one_mb_bytes]`, else `break`.
Returns the list of (written slice, free space at the check) pairs together
with the final free space. -/
def fine_loop (byte_array : List Nat) : List Nat → Nat → List (List Nat × Nat) × Nat
  | [], free => ([], free)
  | i :: rest, free =>
    if one_mb < free then
      (((byte_array.drop (i * one_mb)).take one_mb, free) ::
          (fine_loop byte_array rest
            (free - ((byte_array.drop (i * one_mb)).take one_mb).length)).1,
        (fine_loop byte_array rest
          (free - ((byte_array.drop (i * one_mb)).take one_mb).length)).2)
    else
      ([], free)

/-- `write_byte_array_contiguously` from `src/main.py` lines 153-190, with the
disk state abstracted to its free-byte count.  Returns the coarse-phase trace
of free-space readings, the free space when the coarse phase exited, the
fine-phase trace, and the final free space (`none` when the coarse `while`
loop does not exit within `fuel` iterations). -/
def write_byte_array_contiguously (byte_array : List Nat) (free fuel : Nat) :
    Option (List Nat × Nat × List (List Nat × Nat) × Nat) :=
  match coarse_loop byte_array.length fuel free with
  | (_, none) => none
  | (ctr, some f1) =>
    some (ctr, f1,
      (fine_loop byte_array (List.range (byte_array.length / one_mb)) f1).1,
      (fine_loop byte_array (List.range (byte_array.length / one_mb)) f1).2)

/-- Observable events of a `write_byte_array_contiguously` run:
`t.start()` of the `disk_usage_monitor` thread, each write (tagged with the
free-space reading that guarded it), and `event.set()` of the cancellation
`threading.Event`. -/
inductive Ev where
  | monitorStart : Ev
  | coarseWrite (free : Nat) : Ev
  | fineWrite (free : Nat) : Ev
  | eventSet : Ev
deriving DecidableEq

/-- The two exception kinds handled by `write_byte_array_contiguously`
(`src/main.py` lines 183-186). -/
inductive Exn where
  | keyboardInterrupt : Exn
  | osError : Exn
deriving DecidableEq

/-- The sequence of write events the try-block of
`write_byte_array_contiguously` performs when no exception interrupts it,
plus a flag telling whether the body finished within `fuel`. -/
def fill_events (byte_array : List Nat) (free fuel : Nat) : List Ev × Bool :=
  match coarse_loop byte_array.length fuel free with
  | (ctr, none) => (ctr.map Ev.coarseWrite, false)
  | (ctr, some f1) =>
    (ctr.map Ev.coarseWrite ++
      (fine_loop byte_array (List.range (byte_array.length / one_mb)) f1).1.map
        (fun q => Ev.fineWrite q.2), true)

/-- `write_byte_array_contiguously` with its thread/exception structure
(`src/main.py` lines 168-188): the monitor thread is started before the
`try` block, an exception oracle may abort the body during its `k`-th write
(`exn = some (e, k)`), the `except KeyboardInterrupt` and `except OSError`
handlers both swallow the exception (logging only), and the `finally` block
sets the cancellation event.  Returns the event trace and the outcome. -/
def write_byte_array_contiguously_monitored (byte_array : List Nat)
    (free fuel : Nat) (exn : Option (Exn × Nat)) :
    Option (List Ev × Except Exn Unit) :=
  match exn with
  | some (e, k) =>
    if k < (fill_events byte_array free fuel).1.length then
      some (Ev.monitorStart :: ((fill_events byte_array free fuel).1.take k ++ [Ev.eventSet]),
        match e with
        | Exn.keyboardInterrupt => Except.ok ()
        | Exn.osError => Except.ok ())
    else if (fill_events byte_array free fuel).2 then
      some (Ev.monitorStart :: ((fill_events byte_array free fuel).1 ++ [Ev.eventSet]),
        Except.ok ())
    else
      none
  | none =>
    if (fill_events byte_array free fuel).2 then
      some (Ev.monitorStart :: ((fill_events byte_array free fuel).1 ++ [Ev.eventSet]),
        Except.ok ())
    else
      none

/-- One `rows.append(row)` record of `create_byte_array_high_throughput`
(`src/main.py` line 224). -/
structure PerformanceRecord where
  kb : Nat
  mb : ℚ
  rate : ℚ
  elapsed : ℚ
  iteration : Nat
deriving DecidableEq

/-- The candidate-size schedule of `create_byte_array_high_throughput`
(`src/main.py` lines 210-212): base `[1, 4, 32, 128]`, extended with the
1024-multiples of the base, then extended with the 2x and 3x multiples of the
eight values present at that point (both comprehensions are evaluated over
the 8-element list before the extend). -/
def killobytes_list : List Nat :=
  let base := [1, 4, 32, 128]
  let with_mb := base ++ base.map (fun ele => 1024 * ele)
  with_mb ++ (with_mb.map (fun ele => ele * 2) ++ with_mb.map (fun ele => ele * 3))

/-- One loop body of the sweep in `create_byte_array_high_throughput`
(`src/main.py` lines 213-225), with the measurement of
`write_byte_array_continuously` abstracted to an oracle giving the returned
triple `(bytes_written, elapsed, iteration)` for each candidate size. -/
def perf_row (measure : Nat → Nat × ℚ × Nat) (killobytes : Nat) : PerformanceRecord :=
  ⟨killobytes, (killobytes : ℚ) / 1024,
    ((measure killobytes).1 : ℚ) / 1024 ^ 2 / (measure killobytes).2.1,
    (measure killobytes).2.1, (measure killobytes).2.2⟩

/-- The sweetspot/row accumulation step of the sweep: append the record and
update `(sweetspot_killobytes, sweetspot_rate)` when `rate > sweetspot_rate`
(`src/main.py` lines 219-225). -/
def perf_step (measure : Nat → Nat × ℚ × Nat)
    (acc : List PerformanceRecord × Nat × ℚ) (killobytes : Nat) :
    List PerformanceRecord × Nat × ℚ :=
  if (perf_row measure killobytes).rate > acc.2.2 then
    (acc.1 ++ [perf_row measure killobytes], killobytes, (perf_row measure killobytes).rate)
  else
    (acc.1 ++ [perf_row measure killobytes], acc.2)

/-- `create_byte_array_high_throughput` from `src/main.py` lines 192-230:
iterate `for killobytes in sorted(killobytes_list)` accumulating the rows and
the sweetspot, starting from `rows = []`, `sweetspot_killobytes = 0`,
`sweetspot_rate = 0.0`.  Returns the performance table plus the sweetspot
kilobyte size and its rate (the winning buffer itself is
`create_bytearray_killobytes` applied to the winning size). -/
def create_byte_array_high_throughput (measure : Nat → Nat × ℚ × Nat) :
    List PerformanceRecord × Nat × ℚ :=
  (List.insertionSort (· ≤ ·) killobytes_list).foldl (perf_step measure) ([], 0, 0)

/-- Exit and progress facts about the `while` loop of
`write_byte_array_continuously`: at the failing check both bounds are met,
and every check that passed had one bound unmet. -/
lemma write_loop_spec (clock : Nat → ℚ) (duration : ℚ) (iters : Nat) :
    ∀ fuel it res, write_loop clock duration iters fuel it = some res →
      duration ≤ clock (res + 1) - clock 0 ∧ iters ≤ res ∧ it ≤ res ∧
      (∀ n, it ≤ n → n < res → (clock (n + 1) - clock 0 < duration ∨ n < iters)) := by
  intro fuel
  induction fuel with
  | zero => intro it res h; simp [write_loop] at h
  | succ fuel ih =>
    intro it res h
    rw [write_loop] at h
    by_cases hg : clock (it + 1) - clock 0 < duration ∨ it < iters
    · rw [if_pos hg] at h
      obtain ⟨h1, h2, h3, h4⟩ := ih (it + 1) res h
      refine ⟨h1, h2, by omega, ?_⟩
      intro n hn1 hn2
      rcases Nat.eq_or_lt_of_le hn1 with heq | hlt
      · exact heq ▸ hg
      · exact h4 n hlt hn2
    · rw [if_neg hg] at h
      push_neg at hg
      obtain rfl : it = res := by injection h
      exact ⟨hg.1, hg.2, Nat.le_refl it, fun n hn1 hn2 => absurd hn2 (by omega)⟩

/-- Shape of a successful `write_byte_array_continuously` run: the loop
exited after `it` iterations, the elapsed time is the difference of the two
surrounding clock readings and is nonzero, and the result fields are
determined by `it`. -/
lemma write_byte_array_continuously_ok (clock : Nat → ℚ) (byte_array : List Nat)
    (duration : ℚ) (iterations : Int) (fuel : Nat) (r : WriteResult)
    (hrun : write_byte_array_continuously clock byte_array duration iterations fuel =
      some (Except.ok r)) :
    ∃ it, write_loop clock duration iterations.toNat fuel 0 = some it ∧
      clock (it + 2) - clock 0 ≠ 0 ∧
      r = ⟨it * byte_array.length, clock (it + 2) - clock 0, it⟩ := by
  unfold write_byte_array_continuously at hrun
  cases hv : validate_kwargs "perf" "INFO" (-1) 1 duration iterations with
  | error e => rw [hv] at hrun; simp at hrun
  | ok u =>
    rw [hv] at hrun
    cases hw : write_loop clock duration iterations.toNat fuel 0 with
    | none => rw [hw] at hrun; simp at hrun
    | some it =>
      rw [hw] at hrun
      dsimp only at hrun
      by_cases he : clock (it + 2) - clock 0 = 0
      · rw [if_pos he] at hrun; simp at hrun
      · rw [if_neg he] at hrun
        refine ⟨it, rfl, he, ?_⟩
        have := Option.some.inj hrun
        have := Except.ok.inj this
        exact this.symm

/-- A successful run implies the validation passed, hence
`duration ≥ 0` and `iterations ≥ 0`. -/
lemma write_byte_array_continuously_ok_valid (clock : Nat → ℚ)
    (byte_array : List Nat) (duration : ℚ) (iterations : Int) (fuel : Nat)
    (r : WriteResult)
    (hrun : write_byte_array_continuously clock byte_array duration iterations fuel =
      some (Except.ok r)) :
    0 ≤ duration ∧ 0 ≤ iterations := by
  unfold write_byte_array_continuously at hrun
  cases hv : validate_kwargs "perf" "INFO" (-1) 1 duration iterations with
  | error e => rw [hv] at hrun; simp at hrun
  | ok u =>
    unfold validate_kwargs at hv
    rw [if_neg (by decide), if_neg (by decide), if_neg (by decide),
      if_neg (by decide)] at hv
    by_cases hd : duration < 0
    · rw [if_pos hd] at hv; exact absurd hv (by simp)
    · rw [if_neg hd] at hv
      by_cases hi : iterations < 0
      · rw [if_pos hi] at hv; exact absurd hv (by simp)
      · exact ⟨not_lt.mp hd, not_lt.mp hi⟩

/-- `natClock` is monotone. -/
lemma natClock_mono : Monotone natClock := fun a b hab => by
  simpa [natClock] using Nat.cast_le.mpr hab

/-- Claim C1: for any monotone clock, nonnegative duration bound and
nonnegative iteration bound, when `write_byte_array_continuously` returns a
result, the elapsed time is at least the duration bound, the iteration count
is at least the iteration bound, and every iteration that began did so at a
check where at least one of the two bounds was still unmet. -/
theorem continuous_write_or_continue_and_stop (clock : Nat → ℚ)
    (byte_array : List Nat) (duration : ℚ) (iterations : Int) (fuel : Nat)
    (r : WriteResult) (hmono : Monotone clock) (_hd : 0 ≤ duration)
    (_hi : 0 ≤ iterations)
    (hrun : write_byte_array_continuously clock byte_array duration iterations fuel =
      some (Except.ok r)) :
    duration ≤ r.elapsed ∧ iterations ≤ (r.iteration : Int) ∧
      ∀ n, n < r.iteration → (clock (n + 1) - clock 0 < duration ∨ (n : Int) < iterations) := by
  obtain ⟨it, hw, hne, hr⟩ :=
    write_byte_array_continuously_ok clock byte_array duration iterations fuel r hrun
  obtain ⟨h1, h2, -, h4⟩ := write_loop_spec clock duration iterations.toNat fuel 0 it hw
  subst hr
  refine ⟨?_, ?_, ?_⟩
  · exact le_trans h1 (sub_le_sub_right (hmono (Nat.le_succ (it + 1))) (clock 0))
  · exact Int.toNat_le.mp h2
  · intro n hn
    rcases h4 n (Nat.zero_le n) hn with hl | hr
    · exact Or.inl hl
    · exact Or.inr (Int.lt_toNat.mp hr)

/-- Witness for C1 at a concrete input: strictly ticking clock, both bounds
zero, buffer of four bytes — the run returns immediately with zero
iterations, and the conclusions of the theorem hold there. -/
theorem continuous_write_or_continue_and_stop_witness :
    write_byte_array_continuously natClock [0, 0, 0, 0] 0 0 1 =
      some (Except.ok ⟨0, 2, 0⟩) ∧
    ((0 : ℚ) ≤ (⟨0, 2, 0⟩ : WriteResult).elapsed ∧
      (0 : Int) ≤ ((⟨0, 2, 0⟩ : WriteResult).iteration : Int) ∧
      ∀ n, n < (⟨0, 2, 0⟩ : WriteResult).iteration →
        (natClock (n + 1) - natClock 0 < 0 ∨ (n : Int) < 0)) := by
  have hrun : write_byte_array_continuously natClock [0, 0, 0, 0] 0 0 1 =
      some (Except.ok ⟨0, 2, 0⟩) := by
    norm_num [write_byte_array_continuously, validate_kwargs, write_loop, natClock,
      OPERATIONS, LOG_LEVELS]
  exact ⟨hrun, continuous_write_or_continue_and_stop natClock [0, 0, 0, 0] 0 0 1
    ⟨0, 2, 0⟩ natClock_mono (le_refl 0) (le_refl 0) hrun⟩

/-- Claim C3 (code bug): with `duration = 0` and `iterations = 0` the loop
does exit immediately after zero writes, but the function only returns
`(0, elapsed, 0)` when the two clock readings around the empty loop differ;
when they are equal (`elapsed == 0.0`, a real possibility for Python's
finite-resolution `time.time()`), the unconditional
`throughput = bytes_written / 1024**2 / elapsed` on line 149 raises
`ZeroDivisionError` instead of returning the promised result. -/
theorem continuous_write_zero_bounds_division_bug :
    write_byte_array_continuously (fun _ => (0 : ℚ)) [0, 0, 0, 0] 0 0 1 =
      some (Except.error "ZeroDivisionError: float division by zero") ∧
    write_byte_array_continuously natClock [0, 0, 0, 0] 0 0 1 =
      some (Except.ok ⟨0, 2, 0⟩) := by
  constructor
  · norm_num [write_byte_array_continuously, validate_kwargs, write_loop,
      OPERATIONS, LOG_LEVELS]
  · norm_num [write_byte_array_continuously, validate_kwargs, write_loop, natClock,
      OPERATIONS, LOG_LEVELS]

/-- Claim C7: every `WriteResult` actually returned by
`write_byte_array_continuously` has strictly positive elapsed time whenever
it completed at least one iteration (in fact unconditionally): for a monotone
clock the elapsed time is nonnegative, and a zero elapsed time never reaches
the `return`, because the line-149 throughput computation raises
`ZeroDivisionError` first.  Hence the caller-side throughput derivation
`bytesWritten / elapsedSeconds` never divides by zero on a returned result. -/
theorem write_result_elapsed_pos (clock : Nat → ℚ) (byte_array : List Nat)
    (duration : ℚ) (iterations : Int) (fuel : Nat) (r : WriteResult)
    (hmono : Monotone clock)
    (hrun : write_byte_array_continuously clock byte_array duration iterations fuel =
      some (Except.ok r))
    (_hiter : 0 < r.iteration) : 0 < r.elapsed := by
  obtain ⟨it, -, hne, hr⟩ :=
    write_byte_array_continuously_ok clock byte_array duration iterations fuel r hrun
  subst hr
  exact lt_of_le_of_ne (sub_nonneg.mpr (hmono (Nat.zero_le (it + 2)))) (Ne.symm hne)

/-- Witness for C7 at a concrete input: one completed iteration over a
four-byte buffer with a strictly ticking clock gives elapsed time `3 > 0`. -/
theorem write_result_elapsed_pos_witness :
    write_byte_array_continuously natClock [0, 0, 0, 0] 0 1 2 =
      some (Except.ok ⟨4, 3, 1⟩) ∧
    0 < (⟨4, 3, 1⟩ : WriteResult).iteration ∧
    0 < (⟨4, 3, 1⟩ : WriteResult).elapsed := by
  have hrun : write_byte_array_continuously natClock [0, 0, 0, 0] 0 1 2 =
      some (Except.ok ⟨4, 3, 1⟩) := by
    norm_num [write_byte_array_continuously, validate_kwargs, write_loop, natClock,
      OPERATIONS, LOG_LEVELS]
  exact ⟨hrun, Nat.zero_lt_one,
    write_result_elapsed_pos natClock [0, 0, 0, 0] 0 1 2 ⟨4, 3, 1⟩
      natClock_mono hrun Nat.zero_lt_one⟩

/-- Length of the repeated-block bytearray: `count` copies of a block of
length `m` give `count * m` bytes. -/
lemma flatten_replicate_length {α : Type} (n : Nat) (l : List α) :
    (List.flatten (List.replicate n l)).length = n * l.length := by
  induction n with
  | zero => simp
  | succ n ih =>
    rw [List.replicate_succ, List.flatten_cons, List.length_append, ih]
    ring

/-- Membership in the repeated-block bytearray comes from the block. -/
lemma mem_flatten_replicate {α : Type} (n : Nat) (l : List α) (b : α)
    (hb : b ∈ List.flatten (List.replicate n l)) : b ∈ l := by
  induction n with
  | zero => simp at hb
  | succ n ih =>
    rw [List.replicate_succ, List.flatten_cons, List.mem_append] at hb
    exact hb.elim id ih

/-- Claim C2 (code bug): the operation, size, duration and iterations checks
of `validate_kwargs` fire as specified, but the fill check is dead code: the
source tests `fill < 0 and 255 < fill` (an unsatisfiable conjunction, clearly
meant to be `or`, as its own error message says), so `fill = 300` passes
validation instead of raising a configuration failure. -/
theorem validate_kwargs_fill_check_dead :
    validate_kwargs "perf" "INFO" 300 1 5 10 = Except.ok () ∧
    validate_kwargs "bogus" "INFO" (-1) 1 5 10 =
      Except.error "KeyError: operation does not exist" ∧
    validate_kwargs "perf" "INFO" (-1) 0 5 10 =
      Except.error "ValueError: duration must be a postive int, are you nuts?" ∧
    validate_kwargs "perf" "INFO" (-1) 1 (-1) 10 =
      Except.error "ValueError: duration must be a postive num, are you nuts?" ∧
    validate_kwargs "perf" "INFO" (-1) 1 5 (-1) =
      Except.error "ValueError: iterations must be a postive int, are you nuts?" := by
  refine ⟨by decide, by decide, by decide, ?_, ?_⟩
  · norm_num [validate_kwargs, OPERATIONS, LOG_LEVELS]
  · norm_num [validate_kwargs, OPERATIONS, LOG_LEVELS]

/-- Counterexample to claim C4: `create_bytearray_killobytes` with the
negative count `-5` and the valid fill `0` does not fail — it returns a
buffer (the empty one), because `range(count)` of a negative int is simply
empty. -/
theorem create_bytearray_killobytes_negative_count_returns :
    create_bytearray_killobytes (fun _ => (0 : Fin 256)) (-5) 0 = Except.ok [] := by
  decide

/-- Claim C4 as amended: `create_bytearray_killobytes` fails with a
`ValueError` whenever `fill` is outside `{-1} ∪ [0, 255]` (the 1 KiB template
block construction rejects the out-of-range byte), but for `count < 0` with a
valid fill it does not fail: it returns the empty buffer. -/
theorem create_bytearray_killobytes_validation (rng : Nat → Fin 256)
    (count fill : Int) :
    (fill ≠ -1 → (fill < 0 ∨ 255 < fill) →
      ∃ e, create_bytearray_killobytes rng count fill = Except.error e) ∧
    (count < 0 → (fill = -1 ∨ (0 ≤ fill ∧ fill ≤ 255)) →
      create_bytearray_killobytes rng count fill = Except.ok []) := by
  constructor
  · intro hne hout
    refine ⟨"ValueError: byte must be in range(0, 256)", ?_⟩
    unfold create_bytearray_killobytes create_bytearray
    rw [if_neg hne, if_pos ⟨by decide, hout⟩]
  · intro hneg hval
    have hz : count.toNat = 0 := Int.toNat_of_nonpos (le_of_lt hneg)
    unfold create_bytearray_killobytes create_bytearray
    rcases hval with rfl | ⟨h0, h255⟩
    · rw [if_pos rfl]
      simp [hz]
    · rw [if_neg (by omega), if_neg (by push_neg; intro; omega)]
      simp [hz]

/-- Witness for C4: at `fill = 300` (with `count = 1`) the function fails,
and at `count = -5` (with `fill = 0`) it returns the empty buffer. -/
theorem create_bytearray_killobytes_validation_witness :
    ((300 : Int) ≠ -1 ∧ ((300 : Int) < 0 ∨ 255 < (300 : Int)) ∧
      ∃ e, create_bytearray_killobytes (fun _ => (0 : Fin 256)) 1 300 = Except.error e) ∧
    ((-5 : Int) < 0 ∧
      create_bytearray_killobytes (fun _ => (0 : Fin 256)) (-5) 0 = Except.ok []) := by
  constructor
  · exact ⟨by decide, by decide,
      (create_bytearray_killobytes_validation (fun _ => (0 : Fin 256)) 1 300).1
        (by decide) (by decide)⟩
  · exact ⟨by decide,
      (create_bytearray_killobytes_validation (fun _ => (0 : Fin 256)) (-5) 0).2
        (by decide) (by decide)⟩

/-- Claim C5: for every `count ≥ 0` and fill in `{-1} ∪ [0, 255]`,
`create_bytearray_killobytes` returns a buffer of exactly `count * 1024`
bytes, and when the fill is a constant in `[0, 255]` every byte of the buffer
equals it. -/
theorem create_bytearray_killobytes_size (rng : Nat → Fin 256)
    (count fill : Int) (_hc : 0 ≤ count)
    (hf : fill = -1 ∨ (0 ≤ fill ∧ fill ≤ 255)) :
    ∃ buf, create_bytearray_killobytes rng count fill = Except.ok buf ∧
      buf.length = count.toNat * 1024 ∧
      (0 ≤ fill → ∀ b ∈ buf, b = fill.toNat) := by
  unfold create_bytearray_killobytes create_bytearray
  rcases hf with rfl | ⟨h0, h255⟩
  · rw [if_pos rfl]
    refine ⟨_, rfl, ?_, ?_⟩
    · have h1024 : Int.toNat 1024 = 1024 := rfl
      rw [flatten_replicate_length, List.length_map, List.length_range, h1024]
    · intro habs
      exact absurd habs (by decide)
  · rw [if_neg (by omega), if_neg (by push_neg; intro; omega)]
    refine ⟨_, rfl, ?_, ?_⟩
    · have h1024 : Int.toNat 1024 = 1024 := rfl
      rw [flatten_replicate_length, List.length_replicate, h1024]
    · intro _ b hb
      have := mem_flatten_replicate _ _ _ hb
      exact List.eq_of_mem_replicate this

/-- Witness for C5: `count = 2`, constant `fill = 7` gives 2048 bytes all
equal to `7`. -/
theorem create_bytearray_killobytes_size_witness :
    (0 : Int) ≤ 2 ∧
    ∃ buf, create_bytearray_killobytes (fun _ => (0 : Fin 256)) 2 7 = Except.ok buf ∧
      buf.length = (2 : Int).toNat * 1024 ∧
      (0 ≤ (7 : Int) → ∀ b ∈ buf, b = (7 : Int).toNat) :=
  ⟨by decide, create_bytearray_killobytes_size (fun _ => (0 : Fin 256)) 2 7
    (by decide) (Or.inr ⟨by decide, by decide⟩)⟩

/-- Every free-space reading at which the coarse phase wrote satisfied the
loop guard `free > len(byte_array)`, and the loop exits with at most
`len(byte_array)` bytes free. -/
lemma coarse_loop_spec (bl : Nat) :
    ∀ fuel free ctr f1, coarse_loop bl fuel free = (ctr, some f1) →
      (∀ x ∈ ctr, bl < x) ∧ f1 ≤ bl := by
  intro fuel
  induction fuel with
  | zero => intro free ctr f1 h; simp [coarse_loop] at h
  | succ fuel ih =>
    intro free ctr f1 h
    rw [coarse_loop] at h
    by_cases hg : bl < free
    · rw [if_pos hg] at h
      rw [Prod.mk.injEq] at h
      obtain ⟨hctr, hf⟩ := h
      rcases hrec : coarse_loop bl fuel (free - bl) with ⟨rtr, rf⟩
      rw [hrec] at hctr hf
      dsimp only at hctr hf
      obtain ⟨hmem, hle⟩ := ih (free - bl) rtr f1 (by rw [hrec, hf])
      subst hctr
      refine ⟨?_, hle⟩
      intro x hx
      rcases List.mem_cons.mp hx with rfl | hx'
      · exact hg
      · exact hmem x hx'
    · rw [if_neg hg] at h
      rw [Prod.mk.injEq] at h
      obtain ⟨rfl, hf⟩ := h
      obtain rfl : free = f1 := Option.some.inj hf
      exact ⟨by simp, Nat.not_lt.mp hg⟩

/-- Every fine-phase write happened at a reading with the guard
`free > 1 MiB` true, and wrote a slice of at most 1 MiB. -/
lemma fine_loop_mem (byte_array : List Nat) :
    ∀ idxs free p, p ∈ (fine_loop byte_array idxs free).1 →
      one_mb < p.2 ∧ p.1.length ≤ one_mb := by
  intro idxs
  induction idxs with
  | nil => intro free p hp; simp [fine_loop] at hp
  | cons i rest ih =>
    intro free p hp
    rw [fine_loop] at hp
    by_cases hg : one_mb < free
    · rw [if_pos hg] at hp
      rcases List.mem_cons.mp hp with rfl | hp'
      · exact ⟨hg, by simp⟩
      · exact ih _ p hp'
    · rw [if_neg hg] at hp
      simp at hp

/-- The fine phase writes the slices of a prefix of its index list, in
order. -/
lemma fine_loop_take (byte_array : List Nat) :
    ∀ idxs free, ∃ k, k ≤ idxs.length ∧
      ((fine_loop byte_array idxs free).1).map Prod.fst =
        (idxs.take k).map (fun i => (byte_array.drop (i * one_mb)).take one_mb) := by
  intro idxs
  induction idxs with
  | nil => intro free; exact ⟨0, Nat.le_refl 0, by simp [fine_loop]⟩
  | cons i rest ih =>
    intro free
    by_cases hg : one_mb < free
    · obtain ⟨k, hk, hmap⟩ :=
        ih (free - ((byte_array.drop (i * one_mb)).take one_mb).length)
      refine ⟨k + 1, by simpa using Nat.succ_le_succ hk, ?_⟩
      rw [fine_loop, if_pos hg]
      simpa using hmap
    · exact ⟨0, Nat.zero_le _, by rw [fine_loop, if_neg hg]; simp⟩

/-- Counterexample to the final clause of claim C6: starting with free space
exactly equal to the buffer length (here four bytes), the coarse phase
completes normally after zero writes and leaves `free = len(byte_array)`,
which is not strictly less than the buffer length — the loop guard is strict
`>`, so the exit condition is only `free ≤ len(byte_array)`. -/
theorem contiguous_fill_free_can_equal_len :
    write_byte_array_contiguously [0, 0, 0, 0] 4 1 = some ([], 4, [], 4) ∧
    ¬(4 < List.length ([0, 0, 0, 0] : List Nat)) := by
  constructor
  · decide
  · decide

/-- Claim C6 as amended: in every terminating run of
`write_byte_array_contiguously`, each coarse write was guarded by
`free > len(byte_array)`, each fine write was guarded by `free > 1 MiB` and
wrote at most 1 MiB, and the coarse phase exits with
`free ≤ len(byte_array)` (equality is possible, so the spec's strict `<`
must be weakened to `≤`). -/
theorem contiguous_fill_write_guards (byte_array : List Nat)
    (free fuel : Nat) (ctr : List Nat) (f1 : Nat)
    (ftr : List (List Nat × Nat)) (f2 : Nat)
    (h : write_byte_array_contiguously byte_array free fuel = some (ctr, f1, ftr, f2)) :
    (∀ x ∈ ctr, byte_array.length < x) ∧
    (∀ p ∈ ftr, one_mb < p.2 ∧ p.1.length ≤ one_mb) ∧
    f1 ≤ byte_array.length := by
  unfold write_byte_array_contiguously at h
  rcases hc : coarse_loop byte_array.length fuel free with ⟨ctr0, rf⟩
  rw [hc] at h
  cases rf with
  | none => simp at h
  | some g1 =>
    dsimp only at h
    rw [Option.some.injEq, Prod.mk.injEq, Prod.mk.injEq, Prod.mk.injEq] at h
    obtain ⟨h1, h2, hftr, -⟩ := h
    obtain ⟨hmem, hle⟩ := coarse_loop_spec byte_array.length fuel free ctr0 g1 hc
    subst h1
    subst h2
    exact ⟨hmem, fun p hp => fine_loop_mem byte_array _ _ p (hftr ▸ hp), hle⟩

/-- Witness for the amended C6 at a concrete input: two-byte buffer, five
bytes free — two coarse writes at readings 5 and 3, no fine writes, final
coarse free space 1 ≤ 2. -/
theorem contiguous_fill_write_guards_witness :
    write_byte_array_contiguously [0, 0] 5 10 = some ([5, 3], 1, [], 1) ∧
    ((∀ x ∈ ([5, 3] : List Nat), List.length ([0, 0] : List Nat) < x) ∧
      (∀ p ∈ ([] : List (List Nat × Nat)), one_mb < p.2 ∧ p.1.length ≤ one_mb) ∧
      1 ≤ List.length ([0, 0] : List Nat)) := by
  have h : write_byte_array_contiguously [0, 0] 5 10 = some ([5, 3], 1, [], 1) := by
    decide
  exact ⟨h, contiguous_fill_write_guards [0, 0] 5 10 [5, 3] 1 [] 1 h⟩

/-- Claim C10: (1) in every terminating run, the fine phase writes the
slices `byte_array[i*1MiB:(i+1)*1MiB]` for `i = 0, 1, ...` in order, for some
`k ≤ len(byte_array) / 1MiB` slices, and a buffer shorter than 1 MiB gets no
fine writes at all; (2) consequently a run may end with up to
`len(byte_array)` bytes of free space never written — starting from
`free = len(byte_array)` the run performs no write and ends with
`free = len(byte_array)`. -/
theorem fine_phase_slice_bounds :
    (∀ (byte_array : List Nat) (free fuel : Nat) (ctr : List Nat) (f1 : Nat)
        (ftr : List (List Nat × Nat)) (f2 : Nat),
      write_byte_array_contiguously byte_array free fuel = some (ctr, f1, ftr, f2) →
      ∃ k, k ≤ byte_array.length / one_mb ∧
        ftr.map Prod.fst =
          (List.range k).map (fun i => (byte_array.drop (i * one_mb)).take one_mb) ∧
        (byte_array.length < one_mb → ftr = [])) ∧
    (∀ (byte_array : List Nat) (fuel : Nat), byte_array.length < one_mb →
      write_byte_array_contiguously byte_array byte_array.length (fuel + 1) =
        some ([], byte_array.length, [], byte_array.length)) := by
  constructor
  · intro byte_array free fuel ctr f1 ftr f2 h
    unfold write_byte_array_contiguously at h
    rcases hc : coarse_loop byte_array.length fuel free with ⟨ctr0, rf⟩
    rw [hc] at h
    cases rf with
    | none => simp at h
    | some g1 =>
      dsimp only at h
      rw [Option.some.injEq, Prod.mk.injEq, Prod.mk.injEq, Prod.mk.injEq] at h
      obtain ⟨-, -, hftr, -⟩ := h
      obtain ⟨k, hk, hmap⟩ :=
        fine_loop_take byte_array (List.range (byte_array.length / one_mb)) g1
      rw [List.length_range] at hk
      refine ⟨k, hk, ?_, ?_⟩
      · rw [← hftr, hmap, List.take_range, Nat.min_eq_left hk]
      · intro hshort
        have hdiv : byte_array.length / one_mb = 0 := Nat.div_eq_of_lt hshort
        rw [← hftr, hdiv]
        simp [fine_loop]
  · intro byte_array fuel hlen
    have hdiv : byte_array.length / one_mb = 0 := Nat.div_eq_of_lt hlen
    unfold write_byte_array_contiguously
    rw [coarse_loop, if_neg (lt_irrefl byte_array.length)]
    dsimp only
    rw [hdiv]
    simp [fine_loop]

/-- Witness for C10: the run with a two-byte buffer and five bytes free has
an empty fine trace matching the slice characterisation, and the one-byte
buffer starting at `free = 1` ends untouched with `free = 1`. -/
theorem fine_phase_slice_bounds_witness :
    write_byte_array_contiguously [0, 0] 5 10 = some ([5, 3], 1, [], 1) ∧
    (∃ k, k ≤ List.length ([0, 0] : List Nat) / one_mb ∧
      ([] : List (List Nat × Nat)).map Prod.fst =
        (List.range k).map
          (fun i => (([0, 0] : List Nat).drop (i * one_mb)).take one_mb) ∧
      (List.length ([0, 0] : List Nat) < one_mb → ([] : List (List Nat × Nat)) = [])) ∧
    List.length ([0] : List Nat) < one_mb ∧
    write_byte_array_contiguously [0] (List.length ([0] : List Nat)) (0 + 1) =
      some ([], List.length ([0] : List Nat), [], List.length ([0] : List Nat)) := by
  refine ⟨by decide, ?_, by decide, ?_⟩
  · exact fine_phase_slice_bounds.1 [0, 0] 5 10 [5, 3] 1 [] 1 (by decide)
  · exact fine_phase_slice_bounds.2 [0] 0 (by decide)

/-- Every event the try-block of the fill operation emits is a write event
(not the monitor start, not the cancellation signal). -/
lemma fill_events_writes (byte_array : List Nat) (free fuel : Nat) :
    ∀ e ∈ (fill_events byte_array free fuel).1,
      e ≠ Ev.monitorStart ∧ e ≠ Ev.eventSet := by
  intro e he
  unfold fill_events at he
  rcases hc : coarse_loop byte_array.length fuel free with ⟨ctr, rf⟩
  rw [hc] at he
  cases rf with
  | none =>
    dsimp only at he
    obtain ⟨x, -, rfl⟩ := List.mem_map.mp he
    exact ⟨by simp, by simp⟩
  | some f1 =>
    dsimp only at he
    rcases List.mem_append.mp he with h1 | h2
    · obtain ⟨x, -, rfl⟩ := List.mem_map.mp h1
      exact ⟨by simp, by simp⟩
    · obtain ⟨q, -, rfl⟩ := List.mem_map.mp h2
      exact ⟨by simp, by simp⟩

/-- Claim C8: in every terminating run of the monitored fill — whatever the
exception oracle injects (nothing, a `KeyboardInterrupt`, or an `OSError` at
any write) — the outcome is a normal return, the monitor thread start is the
first event (before any write), and the cancellation signal is the last
event, set on every exit path. -/
theorem monitored_fill_cleanup (byte_array : List Nat) (free fuel : Nat)
    (exn : Option (Exn × Nat)) (tr : List Ev) (r : Except Exn Unit)
    (h : write_byte_array_contiguously_monitored byte_array free fuel exn =
      some (tr, r)) :
    r = Except.ok () ∧
    ∃ ws, tr = Ev.monitorStart :: (ws ++ [Ev.eventSet]) ∧
      ∀ e ∈ ws, e ≠ Ev.monitorStart ∧ e ≠ Ev.eventSet := by
  unfold write_byte_array_contiguously_monitored at h
  cases exn with
  | none =>
    dsimp only at h
    split at h
    · rw [Option.some.injEq, Prod.mk.injEq] at h
      obtain ⟨h1, h2⟩ := h
      exact ⟨h2.symm, (fill_events byte_array free fuel).1, h1.symm,
        fill_events_writes byte_array free fuel⟩
    · exact absurd h (by simp)
  | some ek =>
    rcases ek with ⟨e, k⟩
    dsimp only at h
    split at h
    · cases e with
      | keyboardInterrupt =>
        rw [Option.some.injEq, Prod.mk.injEq] at h
        obtain ⟨h1, h2⟩ := h
        exact ⟨h2.symm, (fill_events byte_array free fuel).1.take k, h1.symm,
          fun x hx => fill_events_writes byte_array free fuel x
            (List.take_subset k _ hx)⟩
      | osError =>
        rw [Option.some.injEq, Prod.mk.injEq] at h
        obtain ⟨h1, h2⟩ := h
        exact ⟨h2.symm, (fill_events byte_array free fuel).1.take k, h1.symm,
          fun x hx => fill_events_writes byte_array free fuel x
            (List.take_subset k _ hx)⟩
    · split at h
      · rw [Option.some.injEq, Prod.mk.injEq] at h
        obtain ⟨h1, h2⟩ := h
        exact ⟨h2.symm, (fill_events byte_array free fuel).1, h1.symm,
          fill_events_writes byte_array free fuel⟩
      · exact absurd h (by simp)

/-- Witness for C8: an `OSError` injected at the second write of a run with
a two-byte buffer and five free bytes still yields a normal return, with the
monitor started first and the cancellation event set last. -/
theorem monitored_fill_cleanup_witness :
    write_byte_array_contiguously_monitored [0, 0] 5 10 (some (Exn.osError, 1)) =
      some ([Ev.monitorStart, Ev.coarseWrite 5, Ev.eventSet], Except.ok ()) ∧
    ((Except.ok () : Except Exn Unit) = Except.ok () ∧
      ∃ ws, [Ev.monitorStart, Ev.coarseWrite 5, Ev.eventSet] =
        Ev.monitorStart :: (ws ++ [Ev.eventSet]) ∧
        ∀ e ∈ ws, e ≠ Ev.monitorStart ∧ e ≠ Ev.eventSet) := by
  have h : write_byte_array_contiguously_monitored [0, 0] 5 10
      (some (Exn.osError, 1)) =
      some ([Ev.monitorStart, Ev.coarseWrite 5, Ev.eventSet], Except.ok ()) := by
    decide
  exact ⟨h, monitored_fill_cleanup [0, 0] 5 10 (some (Exn.osError, 1)) _ _ h⟩

/-- The first component of the sweep fold accumulates exactly one record per
scheduled size, in schedule order. -/
lemma foldl_perf_step_fst (measure : Nat → Nat × ℚ × Nat) :
    ∀ (l : List Nat) (acc : List PerformanceRecord × Nat × ℚ),
      (l.foldl (perf_step measure) acc).1 = acc.1 ++ l.map (perf_row measure) := by
  intro l
  induction l with
  | nil => intro acc; simp
  | cons a l ih =>
    intro acc
    rw [List.foldl_cons, ih]
    unfold perf_step
    by_cases hr : (perf_row measure a).rate > acc.2.2
    · rw [if_pos hr]
      simp
    · rw [if_neg hr]
      simp

/-- Claim C9: the candidate schedule is exactly the 24-element list built
from the base `{1,4,32,128}` KB, their 1024-multiples, and the 2x and 3x
multiples of those eight values, with no deduplication; the sweep iterates
it in ascending (insertion-sorted) order, producing one `PerformanceRecord`
per candidate whose kilobyte column equals the sorted schedule — hence the
table's size entries are sorted ascending and are a permutation of the full
schedule. -/
theorem benchmark_schedule_sorted (measure : Nat → Nat × ℚ × Nat) :
    killobytes_list = [1, 4, 32, 128, 1024, 4096, 32768, 131072,
      2, 8, 64, 256, 2048, 8192, 65536, 262144,
      3, 12, 96, 384, 3072, 12288, 98304, 393216] ∧
    (create_byte_array_high_throughput measure).1.map PerformanceRecord.kb =
      List.insertionSort (· ≤ ·) killobytes_list ∧
    List.Sorted (· ≤ ·)
      ((create_byte_array_high_throughput measure).1.map PerformanceRecord.kb) ∧
    List.Perm
      ((create_byte_array_high_throughput measure).1.map PerformanceRecord.kb)
      killobytes_list := by
  have hrows : (create_byte_array_high_throughput measure).1.map PerformanceRecord.kb =
      List.insertionSort (· ≤ ·) killobytes_list := by
    unfold create_byte_array_high_throughput
    rw [foldl_perf_step_fst]
    rw [List.nil_append, List.map_map]
    rw [show (PerformanceRecord.kb ∘ perf_row measure) = id from funext (fun x => rfl)]
    exact List.map_id _
  refine ⟨by decide, hrows, ?_, ?_⟩
  · rw [hrows]
    exact List.sorted_insertionSort (· ≤ ·) killobytes_list
  · rw [hrows]
    exact List.perm_insertionSort (· ≤ ·) killobytes_list
